import Mathlib

/-!
Verification of the scrambletron PII core: a shallow embedding of the
Danish identity-number (CPR) validator
(`src/scrambletron/recognizers/cpr_recognizer.py`) and of the two
pseudonymization mappers (`src/scrambletron/anonymizer.py`,
`src/pii_removal/anonymizer.py`).

Python strings are modelled as `List Char`, Python dicts (which preserve
insertion order) as association lists updated in place, and Python
exceptions as `Option` (a raised, uncaught exception is `none`).
-/

set_option synthInstance.maxSize 512

namespace Scrambletron

/-- Python `str` is modelled as a list of characters. -/
abbrev Str := List Char

/-- A per-entity-type dict mapping original values to replacement values. -/
abbrev Mft := List (Str × Str)

/-- The dict of dicts `entity_mapping`. -/
abbrev Mapping := List (Str × Mft)

/-- Python dict lookup `d.get(k)` / `k in d`: first (and only) binding wins. -/
def alookup {β : Type} : List (Str × β) → Str → Option β
  | [], _ => none
  | (k', v) :: t, k => if k' = k then some v else alookup t k

/-- Python dict assignment `d[k] = v`: update in place if the key exists
(keeping its position, as Python dicts do), else append at the end. -/
def aupdate {β : Type} : List (Str × β) → Str → β → List (Str × β)
  | [], k, v => [(k, v)]
  | (k', v') :: t, k, v =>
    if k' = k then (k, v) :: t else (k', v') :: aupdate t k v

/-- The numeric value of an ASCII digit character (meaningful when
`c.isDigit`); models Python `int(c)` for a single digit character. -/
def digitVal (c : Char) : Nat := c.toNat - 48

/-- Decimal value of an all-digit string (used only where the source has
already checked `isdigit`). -/
def decimalVal (s : Str) : Nat := s.foldl (fun a c => 10 * a + digitVal c) 0

/-- Python `int(s)`: fails (raises `ValueError`, here `none`) unless the
string is a nonempty run of digits.  The sign/whitespace forms Python also
accepts never occur in this code base and are not modelled. -/
def pyIntParse (s : Str) : Option Nat :=
  if s ≠ [] ∧ s.all Char.isDigit then some (decimalVal s) else none

/-- Big-endian digit list of a natural number (fuel-driven so that it
unfolds by `decide`/`rfl`); models the digit sequence of Python `str(n)`. -/
def natDigitsAux : Nat → Nat → List Nat
  | 0, _ => []
  | fuel + 1, n => if n < 10 then [n] else natDigitsAux fuel (n / 10) ++ [n % 10]

/-- Big-endian decimal digits of `n`. -/
def natDigits (n : Nat) : List Nat := natDigitsAux (n + 1) n

/-- Python `str(n)` for a natural number. -/
def natToStr (n : Nat) : Str := (natDigits n).map Nat.digitChar

/-- Generic splitter on a character predicate; `splitBy p s` cuts `s` at
every character satisfying `p`, keeping empty pieces (as Python
`str.split(sep)` does). -/
def splitBy (p : Char → Bool) : Str → List Str
  | [] => [[]]
  | c :: cs =>
    match splitBy p cs with
    | [] => [[]]
    | piece :: rest =>
      if p c then [] :: piece :: rest else (c :: piece) :: rest

/-- Python `s.split(sep)` for a one-character separator. -/
def pySplitOn (sep : Char) (s : Str) : List Str := splitBy (fun c => c = sep) s

/-- Python's Unicode whitespace predicate (CPython `Py_UNICODE_ISSPACE`),
the separator set of `str.split()` with no arguments: U+0009-U+000D,
U+001C-U+0020, U+0085, U+00A0, U+1680, U+2000-U+200A, U+2028, U+2029,
U+202F, U+205F and U+3000. -/
def pyIsSpace (c : Char) : Bool :=
  let n := c.toNat
  (9 ≤ n ∧ n ≤ 13) ∨ (28 ≤ n ∧ n ≤ 32) ∨ n = 133 ∨ n = 160 ∨
    n = 5760 ∨ (8192 ≤ n ∧ n ≤ 8202) ∨ n = 8232 ∨ n = 8233 ∨
    n = 8239 ∨ n = 8287 ∨ n = 12288

/-- Python `s.split()` (no argument): split on runs of Unicode
whitespace, dropping empty pieces. -/
def pySplitWs (s : Str) : List Str :=
  (splitBy pyIsSpace s).filter (fun w => w ≠ [])

end Scrambletron

namespace Scrambletron

/-! ### The CPR recognizer (`cpr_recognizer.py`) -/

/-- `EntityRecognizer.sanitize_value` with the default replacement pairs
`[(" ", ""), ("-", "")]`: every space and hyphen is removed. -/
def sanitize (s : Str) : Str := s.filter (fun c => ¬ (c = ' ' ∨ c = '-'))

/-- Gregorian leap-year rule, as used by Python `datetime`. -/
def isLeap (y : Nat) : Bool := y % 4 = 0 ∧ (y % 100 ≠ 0 ∨ y % 400 = 0)

/-- Number of days in a month, as enforced by Python `datetime`. -/
def daysInMonth (y m : Nat) : Nat :=
  if m = 2 then (if isLeap y then 29 else 28)
  else if m = 4 ∨ m = 6 ∨ m = 9 ∨ m = 11 then 30
  else 31

/-- Day/month/year form a valid calendar date. -/
def validDMY (y m d : Nat) : Bool :=
  1 ≤ m ∧ m ≤ 12 ∧ 1 ≤ d ∧ d ≤ daysInMonth y m

/-- Python `datetime.strptime(f"{year}-{month}-{day}", "%y-%m-%d")`
succeeding.  CPython's `%y` directive requires exactly two digits, so a
two-digit year below 10 (printed unpadded by the f-string) never matches;
`%y` maps 0-68 to 2000+ and 69-99 to 1900+, and the resulting date must be
a real calendar date. -/
def strptimeY2 (year month day : Nat) : Bool :=
  10 ≤ year ∧ year ≤ 99 ∧
    validDMY (if year ≤ 68 then 2000 + year else 1900 + year) month day

/-- Python `datetime.strptime(f"{fullYear}-{month}-{day}", "%Y-%m-%d")`
succeeding: `%Y` requires exactly four digits and the date must be real. -/
def strptimeY4 (fullYear month day : Nat) : Bool :=
  1000 ≤ fullYear ∧ fullYear ≤ 9999 ∧ validDMY fullYear month day

/-- `CPRRecognizer._derive_full_year`: derives the full year from the
two-digit year and the first digit of the sequence number.  `none` models
the `ValueError` raised (and caught by `_verify_modulo_11`) on an invalid
seventh digit; callers always pass a nonempty `seq_number`. -/
def derive_full_year (year : Nat) (seq : Str) : Option Nat :=
  match seq with
  | [] => none
  | c :: _ =>
    if ¬ c.isDigit then none
    else
      let digit7 := digitVal c
      if digit7 ≤ 3 then some (1900 + year)
      else if digit7 = 4 ∨ digit7 = 9 then
        if year ≤ 36 then some (2000 + year)
        else if 36 ≤ year ∧ year ≤ 99 then some (1900 + year)
        else none
      else if digit7 = 5 ∨ digit7 = 6 ∨ digit7 = 7 ∨ digit7 = 8 then
        if year ≤ 57 then some (2000 + year)
        else if 58 ≤ year ∧ year ≤ 99 then some (1800 + year)
        else none
      else none

/-- The fixed checksum weights for the first nine digits. -/
def weights : List Nat := [4, 3, 2, 7, 6, 5, 4, 3, 2]

/-- `sum(int(text[i]) * weights[i] for i in range(9))`. -/
def weightedSum (text : Str) : Nat :=
  (List.zipWith (fun c w => digitVal c * w) (text.take 9) weights).sum

/-- `CPRRecognizer._verify_modulo_11`.  Returns `some b` when the Python
method returns the boolean `b`, and `none` when an exception would
propagate uncaught (text shorter than 10 characters or containing a
non-digit among its first 10, or an empty `seq_number`). -/
def verify_modulo_11 (text : Str) (day month year : Nat) (seq : Str) :
    Option Bool :=
  if seq = [] then none
  else
    match derive_full_year year seq with
    | none => some false
    | some fullYear =>
      if ¬ strptimeY4 fullYear month day then some false
      else if ¬ (9 ≤ text.length ∧ (text.take 9).all Char.isDigit) then none
      else
        let remainder := weightedSum text % 11
        let computed := if remainder = 0 then 0 else 11 - remainder
        if computed = 10 then some false
        else
          match text.drop 9 with
          | [] => none
          | c :: _ =>
            if ¬ c.isDigit then none
            else some (decide (computed = digitVal c))

/-- `CPRRecognizer.validate_result`.  Note that the source computes
`self._verify_modulo_11(...)` on line 76 but discards its result and
returns `True`; `_verify_modulo_11` cannot raise on the inputs reaching
that line, so the call is a no-op and is not replayed here. -/
def validate_result (pattern_text : Str) : Bool :=
  let text := sanitize pattern_text
  if ¬ (text.length = 10 ∧ text.all Char.isDigit) then false
  else
    let day := decimalVal (text.take 2)
    let month := decimalVal ((text.drop 2).take 2)
    let year := decimalVal ((text.drop 4).take 2)
    if ¬ strptimeY2 year month day then false
    else true

end Scrambletron

namespace Scrambletron

/-! ### The anonymizer operators (`src/scrambletron/anonymizer.py`) -/

/-- The entity-type label "PERSON". -/
def sPERSON : Str := ['P', 'E', 'R', 'S', 'O', 'N']

/-- The entity-type label "LOCATION". -/
def sLOCATION : Str := ['L', 'O', 'C', 'A', 'T', 'I', 'O', 'N']

/-- The entity-type label "PHONE_NUMBER". -/
def sPHONE : Str := ['P', 'H', 'O', 'N', 'E', '_', 'N', 'U', 'M', 'B', 'E', 'R']

/-- `InstanceCounterAnonymizer.REPLACING_FORMAT.format(entity_type=t, index=k)`,
the template `<{entity_type}_{index}>` filled in. -/
def mkCounterRepl (t : Str) (k : Nat) : Str :=
  '<' :: (t ++ '_' :: (natToStr k ++ ['>']))

/-- The inner helper `get_index` of `_get_last_index`:
`int(value.split("_")[-1][:-1])`; `none` models the `ValueError` of `int`. -/
def get_index (v : Str) : Option Nat :=
  pyIntParse (((pySplitOn '_' v).getLastD []).dropLast)

/-- The list comprehension `[get_index(v) for v in values]`: any raised
`ValueError` aborts the whole list. -/
def collectIndices : List Str → Option (List Nat)
  | [] => some []
  | v :: vs =>
    match get_index v, collectIndices vs with
    | some i, some is => some (i :: is)
    | _, _ => none

/-- `InstanceCounterAnonymizer._get_last_index`: `max(indices)`, where
`max` of an empty list raises (`none`). -/
def get_last_index (vals : List Str) : Option Nat :=
  match collectIndices vals with
  | none => none
  | some [] => none
  | some (i :: is) => some (is.foldl Nat.max i)

/-- `InstanceCounterAnonymizer.operate` (scrambletron tree) for a
well-formed `params` dict carrying `entity_type` and `entity_mapping`.
Returns the replacement string and the updated mapping, or `none` when an
exception would propagate. -/
def counterOperate (text ty : Str) (m : Mapping) : Option (Str × Mapping) :=
  match alookup m ty with
  | none =>
    let newText := mkCounterRepl ty 0
    some (newText, aupdate m ty [(text, newText)])
  | some mft =>
    if mft = [] then
      let newText := mkCounterRepl ty 0
      some (newText, aupdate m ty [(text, newText)])
    else
      match alookup mft text with
      | some v => some (v, m)
      | none =>
        match get_last_index (mft.map Prod.snd) with
        | none => none
        | some previousIndex =>
          let newText := mkCounterRepl ty (previousIndex + 1)
          some (newText, aupdate m ty (aupdate mft text newText))

/-- The closed set of labels returned by
`gender_guesser.detector.Detector.get_gender`. -/
inductive GLabel : Type
  | unknown
  | andy
  | male
  | mostly_male
  | female
  | mostly_female
deriving DecidableEq

/-- The string form of a classifier label. -/
def labelStr : GLabel → Str
  | .unknown => ['u', 'n', 'k', 'n', 'o', 'w', 'n']
  | .andy => ['a', 'n', 'd', 'y']
  | .male => ['m', 'a', 'l', 'e']
  | .mostly_male => ['m', 'o', 's', 't', 'l', 'y', '_', 'm', 'a', 'l', 'e']
  | .female => ['f', 'e', 'm', 'a', 'l', 'e']
  | .mostly_female =>
    ['m', 'o', 's', 't', 'l', 'y', '_', 'f', 'e', 'm', 'a', 'l', 'e']

/-- Which of the three faker name generators a label selects. -/
inductive GenTag : Type
  | nonbinary
  | male
  | female
deriving DecidableEq

/-- The `label_to_gender` dict of `InstanceReplacerAnonymizer._guess_gender`. -/
def labelToGender : List (Str × GenTag) :=
  [(labelStr .unknown, .nonbinary),
   (labelStr .andy, .nonbinary),
   (labelStr .male, .male),
   (labelStr .mostly_male, .male),
   (labelStr .female, .female),
   (labelStr .mostly_female, .female)]

/-- The external faker / gender-guesser collaborators of
`InstanceReplacerAnonymizer`, abstracted as an oracle: `genderOf` is
`Detector.get_gender` (which always returns one of the six labels), the
other fields are the values the faker calls produce. -/
structure Oracle : Type where
  genderOf : Str → GLabel
  nameNonbinary : Str
  nameMale : Str
  nameFemale : Str
  address : Str
  phone : Str

/-- Apply the generator a `GenTag` stands for. -/
def applyGen (O : Oracle) : GenTag → Str
  | .nonbinary => O.nameNonbinary
  | .male => O.nameMale
  | .female => O.nameFemale

/-- `InstanceReplacerAnonymizer._guess_gender`: classify, then look the
label up in `label_to_gender` (`none` models a `KeyError`, which in fact
never happens). -/
def guess_gender (O : Oracle) (text : Str) : Option GenTag :=
  alookup labelToGender (labelStr (O.genderOf text))

/-- Python `s.replace("\n", " ")` for the one-character pattern. -/
def pyReplaceNl (s : Str) : Str :=
  s.map (fun c => if c = '\n' then ' ' else c)

/-- `InstanceReplacerAnonymizer._generate_replacement`.  `none` models an
uncaught exception: the `IndexError` of `value.split()[0]` on a
whitespace-only value, or a `KeyError` from `_guess_gender`. -/
def generate_replacement (O : Oracle) (entity value : Str) : Option Str :=
  if entity = sPERSON then
    match pySplitWs value with
    | [] => none
    | w :: _ =>
      match guess_gender O w with
      | none => none
      | some g => some (applyGen O g)
  else if entity = sLOCATION then some (pyReplaceNl O.address)
  else if entity = sPHONE then some O.phone
  else some []

/-- `InstanceReplacerAnonymizer.REPLACING_FORMAT.format(type=t, replacement=r)`,
the template `<{type}_{replacement}>` filled in. -/
def mkReplacerText (t r : Str) : Str := '<' :: (t ++ '_' :: (r ++ ['>']))

/-- `InstanceReplacerAnonymizer.operate` for a well-formed `params` dict.
The faker/gender collaborators are supplied as an oracle. -/
def replacerOperate (O : Oracle) (text ty : Str) (m : Mapping) :
    Option (Str × Mapping) :=
  match alookup m ty with
  | none =>
    match generate_replacement O ty text with
    | none => none
    | some replacement =>
      let newText := mkReplacerText ty replacement
      some (newText, aupdate m ty [(text, newText)])
  | some mft =>
    if mft = [] then
      match generate_replacement O ty text with
      | none => none
      | some replacement =>
        let newText := mkReplacerText ty replacement
        some (newText, aupdate m ty [(text, newText)])
    else
      match alookup mft text with
      | some v => some (v, m)
      | none =>
        match generate_replacement O ty text with
        | none => none
        | some replacement =>
          let newText := mkReplacerText ty replacement
          some (newText, aupdate m ty (aupdate mft text newText))

end Scrambletron

namespace Scrambletron

/-! ### The anonymizer operators of the `pii_removal` tree
(`src/pii_removal/anonymizer.py`); the counter operator is embedded
separately so it can be compared with the scrambletron one. -/

/-- `get_index` inside `InstanceCounterAnonymizer._get_last_index`
(pii_removal tree). -/
def pii_get_index (v : Str) : Option Nat :=
  pyIntParse (((pySplitOn '_' v).getLastD []).dropLast)

/-- The list comprehension of `_get_last_index` (pii_removal tree). -/
def pii_collectIndices : List Str → Option (List Nat)
  | [] => some []
  | v :: vs =>
    match pii_get_index v, pii_collectIndices vs with
    | some i, some is => some (i :: is)
    | _, _ => none

/-- `InstanceCounterAnonymizer._get_last_index` (pii_removal tree). -/
def pii_get_last_index (vals : List Str) : Option Nat :=
  match pii_collectIndices vals with
  | none => none
  | some [] => none
  | some (i :: is) => some (is.foldl Nat.max i)

/-- `InstanceCounterAnonymizer.REPLACING_FORMAT` filled in
(pii_removal tree, same template `<{entity_type}_{index}>`). -/
def pii_mkCounterRepl (t : Str) (k : Nat) : Str :=
  '<' :: (t ++ '_' :: (natToStr k ++ ['>']))

/-- `InstanceCounterAnonymizer.operate` (pii_removal tree) for a
well-formed `params` dict. -/
def pii_counterOperate (text ty : Str) (m : Mapping) :
    Option (Str × Mapping) :=
  match alookup m ty with
  | none =>
    let newText := pii_mkCounterRepl ty 0
    some (newText, aupdate m ty [(text, newText)])
  | some mft =>
    if mft = [] then
      let newText := pii_mkCounterRepl ty 0
      some (newText, aupdate m ty [(text, newText)])
    else
      match alookup mft text with
      | some v => some (v, m)
      | none =>
        match pii_get_last_index (mft.map Prod.snd) with
        | none => none
        | some previousIndex =>
          let newText := pii_mkCounterRepl ty (previousIndex + 1)
          some (newText, aupdate m ty (aupdate mft text newText))

/-- Run a sequence of `(text, entity_type)` calls through an operator,
collecting the returned replacement strings and threading the mutable
mapping; any raised exception aborts the run. -/
def runOp (step : Str → Str → Mapping → Option (Str × Mapping))
    (calls : List (Str × Str)) (m : Mapping) : Option (List Str × Mapping) :=
  match calls with
  | [] => some ([], m)
  | (text, ty) :: rest =>
    match step text ty m with
    | none => none
    | some (r, m') =>
      match runOp step rest m' with
      | none => none
      | some (rs, m'') => some (r :: rs, m'')

/-- Run a sequence of original values for one fixed entity type through
the scrambletron counter operator, returning the final mapping. -/
def runCounter (ty : Str) (texts : List Str) (m : Mapping) : Option Mapping :=
  match texts with
  | [] => some m
  | t :: ts =>
    match counterOperate t ty m with
    | none => none
    | some (_, m') => runCounter ty ts m'

/-- The distinct values of `texts` in first-seen order, continuing from
the already-seen list `acc`. -/
def fsAcc (acc : List Str) : List Str → List Str
  | [] => acc
  | t :: ts => if t ∈ acc then fsAcc acc ts else fsAcc (acc ++ [t]) ts

/-- The per-type dict the counter operator builds after recording the
given keys in order, starting at index `off`. -/
def buildMft (ty : Str) (off : Nat) : List Str → Mft
  | [] => []
  | k :: ks => (k, mkCounterRepl ty off) :: buildMft ty (off + 1) ks

/-- The list `[off, off + 1, ..., off + n - 1]`. -/
def idxFrom (off : Nat) : Nat → List Nat
  | 0 => []
  | n + 1 => off :: idxFrom (off + 1) n

/-- Position of the first occurrence of `t` in a list of strings. -/
def firstIdx (t : Str) : List Str → Nat
  | [] => 0
  | k :: ks => if k = t then 0 else firstIdx t ks + 1

/-- Big-endian decimal parse used to relate `natToStr` to its value. -/
def parseDigits (l : List Nat) : Nat := l.foldl (fun a d => 10 * a + d) 0

/-- A concrete oracle: the classifier always answers "unknown" and every
faker call produces the empty string. -/
def trivOracle : Oracle :=
  ⟨fun _ => GLabel.unknown, [], [], [], [], []⟩

/-- The entity-type label "EMAIL", outside the replacer's supported set. -/
def sEMAIL : Str := ['E', 'M', 'A', 'I', 'L']

/-- A one-letter entity-type label used in concrete runs. -/
def sT : Str := ['T']

/-- Concrete original value "a". -/
def tA : Str := ['a']

/-- Concrete original value "b". -/
def tB : Str := ['b']

/-- Concrete original value "c". -/
def tC : Str := ['c']

/-- A candidate that passes the date checks but fails the checksum:
day 01, month 01, year 11, sequence 0000; the weighted sum is 21, the
remainder 10, the computed check digit 1, while the 10th digit is 0. -/
def cprBad : Str := ['0', '1', '0', '1', '1', '1', '0', '0', '0', '0']

/-- A candidate that passes both the date checks and the checksum
(the spec's end-to-end example "1111111118"). -/
def cprGood : Str := ['1', '1', '1', '1', '1', '1', '1', '1', '1', '8']

/-- A 10-digit string whose computed check digit is 10 (weighted sum 12,
remainder 1, computed digit 10): invalid regardless of its last digit. -/
def cprTen : Str := ['0', '0', '0', '0', '0', '0', '0', '0', '6', '0']

end Scrambletron

namespace Scrambletron

/-! ### Lemmas about the dict model -/

theorem alookup_cons_self {β : Type} (k : Str) (v : β) (t : List (Str × β)) :
    alookup ((k, v) :: t) k = some v := by
  simp [alookup]

theorem alookup_aupdate_self {β : Type} (l : List (Str × β)) (k : Str) (v : β) :
    alookup (aupdate l k v) k = some v := by
  induction l with
  | nil => simp [aupdate, alookup]
  | cons hd t ih =>
    obtain ⟨k', v'⟩ := hd
    by_cases hk : k' = k
    · simp [aupdate, hk, alookup]
    · simp [aupdate, hk, alookup, ih]

theorem aupdate_ne_nil {β : Type} (l : List (Str × β)) (k : Str) (v : β) :
    aupdate l k v ≠ [] := by
  cases l with
  | nil => simp [aupdate]
  | cons hd t =>
    obtain ⟨k', v'⟩ := hd
    by_cases hk : k' = k <;> simp [aupdate, hk]

theorem aupdate_eq_append {β : Type} (l : List (Str × β)) (k : Str) (v : β)
    (h : alookup l k = none) : aupdate l k v = l ++ [(k, v)] := by
  induction l with
  | nil => simp [aupdate]
  | cons hd t ih =>
    obtain ⟨k', v'⟩ := hd
    by_cases hk : k' = k
    · simp [alookup, hk] at h
    · simp only [alookup, hk, if_false] at h
      simp [aupdate, hk, ih h]

/-! ### Lemmas about the string-splitting model -/

theorem splitBy_ne_nil (p : Char → Bool) (s : Str) : splitBy p s ≠ [] := by
  cases s with
  | nil => simp [splitBy]
  | cons c cs =>
    simp only [splitBy]
    cases h : splitBy p cs with
    | nil => simp
    | cons piece rest => by_cases hc : p c <;> simp [hc]

theorem splitBy_no_sep (p : Char → Bool) (s : Str)
    (h : ∀ c ∈ s, p c = false) : splitBy p s = [s] := by
  induction s with
  | nil => rfl
  | cons c cs ih =>
    have hc : p c = false := h c (List.mem_cons_self c cs)
    have hrest : splitBy p cs = [cs] := ih fun d hd => h d (List.mem_cons_of_mem c hd)
    simp [splitBy, hrest, hc]

theorem splitBy_sep_append (p : Char → Bool) (c : Char) (hc : p c = true) :
    ∀ a b : Str, splitBy p (a ++ c :: b) = splitBy p a ++ splitBy p b := by
  intro a
  induction a with
  | nil =>
    intro b
    obtain ⟨piece, rest, hb⟩ :
        ∃ piece rest, splitBy p b = piece :: rest := by
      cases h : splitBy p b with
      | nil => exact absurd h (splitBy_ne_nil p b)
      | cons piece rest => exact ⟨piece, rest, rfl⟩
    simp [splitBy, hb, hc]
  | cons d a' ih =>
    intro b
    obtain ⟨piece, rest, ha⟩ :
        ∃ piece rest, splitBy p a' = piece :: rest := by
      cases h : splitBy p a' with
      | nil => exact absurd h (splitBy_ne_nil p a')
      | cons piece rest => exact ⟨piece, rest, rfl⟩
    have ih' := ih b
    rw [ha] at ih'
    by_cases hd : p d
    · simp [splitBy, ih', ha, hd]
    · simp [splitBy, ih', ha, hd]

/-! ### Lemmas about decimal rendering and parsing -/

theorem natDigitsAux_spec :
    ∀ fuel n, n < fuel →
      natDigitsAux fuel n ≠ [] ∧ (∀ d ∈ natDigitsAux fuel n, d < 10) ∧
        parseDigits (natDigitsAux fuel n) = n := by
  intro fuel
  induction fuel with
  | zero => intro n hn; omega
  | succ fuel ih =>
    intro n hn
    by_cases h10 : n < 10
    · refine ⟨by simp [natDigitsAux, h10], ?_, ?_⟩
      · intro d hd
        simp [natDigitsAux, h10] at hd
        omega
      · simp [natDigitsAux, h10, parseDigits]
    · have hpos : 0 < n := by omega
      have hdiv : n / 10 < n := Nat.div_lt_self hpos (by omega)
      have hfuel : n / 10 < fuel := by omega
      obtain ⟨hne, hlt, hparse⟩ := ih (n / 10) hfuel
      refine ⟨by simp [natDigitsAux, h10], ?_, ?_⟩
      · intro d hd
        simp only [natDigitsAux, h10, if_false, List.mem_append,
          List.mem_singleton] at hd
        rcases hd with hd | hd
        · exact hlt d hd
        · subst hd; exact Nat.mod_lt n (by omega)
      · simp only [natDigitsAux, h10, if_false]
        unfold parseDigits at hparse ⊢
        rw [List.foldl_append, hparse]
        simp [Nat.div_add_mod]

theorem natDigits_ne_nil (n : Nat) : natDigits n ≠ [] :=
  (natDigitsAux_spec (n + 1) n (Nat.lt_succ_self n)).1

theorem natDigits_lt_ten (n : Nat) : ∀ d ∈ natDigits n, d < 10 :=
  (natDigitsAux_spec (n + 1) n (Nat.lt_succ_self n)).2.1

theorem parseDigits_natDigits (n : Nat) : parseDigits (natDigits n) = n :=
  (natDigitsAux_spec (n + 1) n (Nat.lt_succ_self n)).2.2

theorem digitChar_isDigit (d : Nat) (h : d < 10) :
    (Nat.digitChar d).isDigit = true := by
  interval_cases d <;> decide

theorem digitVal_digitChar (d : Nat) (h : d < 10) :
    digitVal (Nat.digitChar d) = d := by
  interval_cases d <;> decide

theorem isDigit_ne_underscore (c : Char) (h : c.isDigit = true) :
    (decide (c = '_') : Bool) = false := by
  by_contra hne
  have : c = '_' := by
    cases hd : (decide (c = '_') : Bool) with
    | false => exact absurd hd hne
    | true => exact of_decide_eq_true hd
  subst this
  simp at h

theorem natToStr_ne_nil (n : Nat) : natToStr n ≠ [] := by
  unfold natToStr
  intro h
  exact natDigits_ne_nil n (List.map_eq_nil_iff.mp h)

theorem natToStr_all_digit (n : Nat) : ∀ c ∈ natToStr n, c.isDigit = true := by
  intro c hc
  unfold natToStr at hc
  obtain ⟨d, hd, rfl⟩ := List.mem_map.mp hc
  exact digitChar_isDigit d (natDigits_lt_ten n d hd)

theorem foldl_digitVal_digitChar :
    ∀ (l : List Nat), (∀ d ∈ l, d < 10) → ∀ a : Nat,
      List.foldl (fun a c => 10 * a + digitVal c) a (l.map Nat.digitChar) =
        List.foldl (fun a d => 10 * a + d) a l := by
  intro l
  induction l with
  | nil => intro _ a; rfl
  | cons d t ih =>
    intro h a
    have hd : d < 10 := h d (List.mem_cons_self d t)
    simp only [List.map_cons, List.foldl_cons]
    rw [digitVal_digitChar d hd]
    exact ih (fun e he => h e (List.mem_cons_of_mem d he)) _

theorem pyIntParse_natToStr (n : Nat) : pyIntParse (natToStr n) = some n := by
  unfold pyIntParse
  rw [if_pos]
  · congr 1
    unfold decimalVal natToStr
    rw [foldl_digitVal_digitChar (natDigits n) (natDigits_lt_ten n) 0]
    exact parseDigits_natDigits n
  · exact ⟨natToStr_ne_nil n, List.all_eq_true.mpr (natToStr_all_digit n)⟩

/-! ### The recorded index can be parsed back out of a counter tag -/

theorem get_index_mkCounterRepl (t : Str) (k : Nat) :
    get_index (mkCounterRepl t k) = some k := by
  have hsplit : mkCounterRepl t k = ('<' :: t) ++ '_' :: (natToStr k ++ ['>']) := by
    simp [mkCounterRepl]
  have hnosep : ∀ c ∈ natToStr k ++ ['>'],
      (fun c => decide (c = '_')) c = false := by
    intro c hc
    rcases List.mem_append.mp hc with hc | hc
    · exact isDigit_ne_underscore c (natToStr_all_digit k c hc)
    · simp only [List.mem_singleton] at hc
      subst hc
      decide
  unfold get_index pySplitOn
  rw [hsplit, splitBy_sep_append (fun c => decide (c = '_')) '_' (by decide),
    splitBy_no_sep _ _ hnosep, List.getLastD_concat, List.dropLast_concat]
  exact pyIntParse_natToStr k

theorem mkCounterRepl_inj (t : Str) {i j : Nat}
    (h : mkCounterRepl t i = mkCounterRepl t j) : i = j := by
  have hi := get_index_mkCounterRepl t i
  rw [h, get_index_mkCounterRepl t j] at hi
  exact (Option.some_inj.mp hi).symm

/-! ### Lemmas about the dict the counter operator accumulates -/

theorem buildMft_append (ty : Str) :
    ∀ (l₁ l₂ : List Str) (off : Nat),
      buildMft ty off (l₁ ++ l₂) =
        buildMft ty off l₁ ++ buildMft ty (off + l₁.length) l₂ := by
  intro l₁
  induction l₁ with
  | nil => intro l₂ off; simp [buildMft]
  | cons k ks ih =>
    intro l₂ off
    have hcons : (k :: ks) ++ l₂ = k :: (ks ++ l₂) := rfl
    rw [hcons]
    show (k, mkCounterRepl ty off) :: buildMft ty (off + 1) (ks ++ l₂) = _
    rw [ih l₂ (off + 1)]
    simp only [buildMft, List.cons_append, List.length_cons]
    have harith : off + 1 + ks.length = off + (ks.length + 1) := by omega
    rw [harith]

theorem buildMft_ne_nil (ty : Str) (off : Nat) (keys : List Str)
    (h : keys ≠ []) : buildMft ty off keys ≠ [] := by
  cases keys with
  | nil => exact absurd rfl h
  | cons k ks => simp [buildMft]

theorem alookup_buildMft (ty : Str) :
    ∀ (keys : List Str) (off : Nat) (t : Str),
      alookup (buildMft ty off keys) t =
        if t ∈ keys then some (mkCounterRepl ty (off + firstIdx t keys))
        else none := by
  intro keys
  induction keys with
  | nil => intro off t; simp [buildMft, alookup]
  | cons k ks ih =>
    intro off t
    by_cases hk : k = t
    · subst hk
      simp [buildMft, alookup, firstIdx]
    · have hne : t ≠ k := fun h => hk h.symm
      simp only [buildMft, alookup, hk, if_false, ih (off + 1) t,
        List.mem_cons, firstIdx]
      by_cases hmem : t ∈ ks
      · rw [if_pos hmem, if_pos (Or.inr hmem)]
        have : off + 1 + firstIdx t ks = off + (firstIdx t ks + 1) := by omega
        rw [this]
      · rw [if_neg hmem, if_neg]
        intro h
        rcases h with h | h
        · exact hne h
        · exact hmem h

theorem collectIndices_buildMft (ty : Str) :
    ∀ (keys : List Str) (off : Nat),
      collectIndices ((buildMft ty off keys).map Prod.snd) =
        some (idxFrom off keys.length) := by
  intro keys
  induction keys with
  | nil => intro off; simp [buildMft, collectIndices, idxFrom]
  | cons k ks ih =>
    intro off
    simp only [buildMft, List.map_cons, collectIndices,
      get_index_mkCounterRepl, ih (off + 1), List.length_cons, idxFrom]

theorem foldl_max_idxFrom :
    ∀ (n off a : Nat),
      List.foldl Nat.max a (idxFrom off (n + 1)) = Nat.max a (off + n) := by
  intro n
  induction n with
  | zero => intro off a; simp [idxFrom]
  | succ n ih =>
    intro off a
    show List.foldl Nat.max a (off :: idxFrom (off + 1) (n + 1)) = _
    simp only [List.foldl_cons, ih (off + 1)]
    simp only [Nat.max_def]
    split_ifs <;> omega

theorem get_last_index_buildMft (ty : Str) (keys : List Str) (n : Nat)
    (h : keys.length = n + 1) :
    get_last_index ((buildMft ty 0 keys).map Prod.snd) = some n := by
  unfold get_last_index
  rw [collectIndices_buildMft ty keys 0, h]
  show (match (some (0 :: idxFrom 1 n) : Option (List Nat)) with
    | none => none
    | some [] => none
    | some (i :: is) => some (is.foldl Nat.max i)) = some n
  cases n with
  | zero => rfl
  | succ m =>
    simp only []
    rw [foldl_max_idxFrom m 1 0]
    congr 1
    simp only [Nat.max_def]
    split_ifs <;> omega

/-! ### Lemmas about `firstIdx` -/

theorem firstIdx_get :
    ∀ (keys : List Str), keys.Nodup → ∀ i (h : i < keys.length),
      firstIdx (keys.get ⟨i, h⟩) keys = i := by
  intro keys
  induction keys with
  | nil => intro _ i h; exact absurd h (Nat.not_lt_zero i)
  | cons k ks ih =>
    intro hn i h
    obtain ⟨hkn, hks⟩ := List.nodup_cons.mp hn
    cases i with
    | zero => simp [firstIdx]
    | succ i =>
      have hi : i < ks.length := by simpa using h
      have hget : (k :: ks).get ⟨i + 1, h⟩ = ks.get ⟨i, hi⟩ := rfl
      rw [hget]
      have hne : ¬ k = ks.get ⟨i, hi⟩ :=
        fun he => hkn (he ▸ List.get_mem ks i hi)
      simp only [firstIdx, hne, if_false]
      rw [ih hks i hi]

theorem firstIdx_inj :
    ∀ (keys : List Str) (t₁ t₂ : Str), t₁ ∈ keys → t₂ ∈ keys →
      firstIdx t₁ keys = firstIdx t₂ keys → t₁ = t₂ := by
  intro keys
  induction keys with
  | nil => intro t₁ t₂ h₁; exact absurd h₁ (List.not_mem_nil t₁)
  | cons k ks ih =>
    intro t₁ t₂ h₁ h₂ heq
    by_cases e₁ : k = t₁ <;> by_cases e₂ : k = t₂
    · rw [← e₁, ← e₂]
    · rw [show firstIdx t₁ (k :: ks) = 0 by simp [firstIdx, e₁],
        show firstIdx t₂ (k :: ks) = firstIdx t₂ ks + 1 by
          simp [firstIdx, e₂]] at heq
      omega
    · rw [show firstIdx t₁ (k :: ks) = firstIdx t₁ ks + 1 by
          simp [firstIdx, e₁],
        show firstIdx t₂ (k :: ks) = 0 by simp [firstIdx, e₂]] at heq
      omega
    · rw [show firstIdx t₁ (k :: ks) = firstIdx t₁ ks + 1 by
          simp [firstIdx, e₁],
        show firstIdx t₂ (k :: ks) = firstIdx t₂ ks + 1 by
          simp [firstIdx, e₂]] at heq
      simp only [Nat.add_right_cancel_iff] at heq
      have m₁ : t₁ ∈ ks := by
        rcases List.mem_cons.mp h₁ with h | h
        · exact absurd h.symm e₁
        · exact h
      have m₂ : t₂ ∈ ks := by
        rcases List.mem_cons.mp h₂ with h | h
        · exact absurd h.symm e₂
        · exact h
      exact ih t₁ t₂ m₁ m₂ heq

/-! ### Single-step behaviour of the counter operator -/

theorem counterOperate_fresh (t ty : Str) (m : Mapping)
    (h : alookup m ty = none ∨ alookup m ty = some []) :
    counterOperate t ty m =
      some (mkCounterRepl ty 0, aupdate m ty (buildMft ty 0 [t])) := by
  have hb : buildMft ty 0 [t] = [(t, mkCounterRepl ty 0)] := rfl
  rcases h with h | h <;> simp [counterOperate, h, hb]

theorem counterOperate_mem (t ty : Str) (m : Mapping) (keys : List Str)
    (hm : alookup m ty = some (buildMft ty 0 keys)) (hne : keys ≠ [])
    (hmem : t ∈ keys) :
    counterOperate t ty m = some (mkCounterRepl ty (firstIdx t keys), m) := by
  have hl : alookup (buildMft ty 0 keys) t =
      some (mkCounterRepl ty (0 + firstIdx t keys)) := by
    rw [alookup_buildMft ty keys 0 t, if_pos hmem]
  simp [counterOperate, hm, buildMft_ne_nil ty 0 keys hne, hl]

theorem counterOperate_new (t ty : Str) (m : Mapping) (keys : List Str)
    (hm : alookup m ty = some (buildMft ty 0 keys)) (hne : keys ≠ [])
    (hnmem : t ∉ keys) :
    counterOperate t ty m =
      some (mkCounterRepl ty keys.length,
        aupdate m ty (buildMft ty 0 (keys ++ [t]))) := by
  obtain ⟨n, hn⟩ : ∃ n, keys.length = n + 1 := by
    cases keys with
    | nil => exact absurd rfl hne
    | cons k ks => exact ⟨ks.length, rfl⟩
  have hl : alookup (buildMft ty 0 keys) t = none := by
    rw [alookup_buildMft ty keys 0 t, if_neg hnmem]
  have hgli := get_last_index_buildMft ty keys n hn
  have happ : aupdate (buildMft ty 0 keys) t (mkCounterRepl ty (n + 1)) =
      buildMft ty 0 (keys ++ [t]) := by
    rw [aupdate_eq_append _ _ _ hl, buildMft_append ty keys [t] 0]
    simp [buildMft, hn]
  simp [counterOperate, hm, buildMft_ne_nil ty 0 keys hne, hl, hgli, hn, happ]

/-! ### The run invariant of the counter operator -/

theorem runCounter_inv :
    ∀ (texts : List Str) (ty : Str) (m : Mapping) (keys : List Str),
      keys ≠ [] → keys.Nodup → alookup m ty = some (buildMft ty 0 keys) →
      ∃ m', runCounter ty texts m = some m' ∧
        alookup m' ty = some (buildMft ty 0 (fsAcc keys texts)) ∧
        (fsAcc keys texts).Nodup ∧ fsAcc keys texts ≠ [] := by
  intro texts
  induction texts with
  | nil =>
    intro ty m keys h1 h2 h3
    exact ⟨m, rfl, h3, h2, h1⟩
  | cons t ts ih =>
    intro ty m keys h1 h2 h3
    by_cases hmem : t ∈ keys
    · have hstep := counterOperate_mem t ty m keys h3 h1 hmem
      have hrun : runCounter ty (t :: ts) m = runCounter ty ts m := by
        simp [runCounter, hstep]
      have hfs : fsAcc keys (t :: ts) = fsAcc keys ts := by
        simp [fsAcc, hmem]
      rw [hrun, hfs]
      exact ih ty m keys h1 h2 h3
    · have hstep := counterOperate_new t ty m keys h3 h1 hmem
      have hrun : runCounter ty (t :: ts) m =
          runCounter ty ts (aupdate m ty (buildMft ty 0 (keys ++ [t]))) := by
        simp [runCounter, hstep]
      have hfs : fsAcc keys (t :: ts) = fsAcc (keys ++ [t]) ts := by
        simp [fsAcc, hmem]
      rw [hrun, hfs]
      have hnodup : (keys ++ [t]).Nodup := by
        rw [List.nodup_append]
        refine ⟨h2, List.nodup_singleton t, ?_⟩
        intro a ha hb
        simp only [List.mem_singleton] at hb
        subst hb
        exact hmem ha
      exact ih ty _ (keys ++ [t]) (by simp) hnodup
        (alookup_aupdate_self m ty (buildMft ty 0 (keys ++ [t])))

/-! ### Repeat calls return the recorded replacement -/

theorem counter_repeat (text ty : Str) (m : Mapping) (r : Str) (m' : Mapping)
    (h : counterOperate text ty m = some (r, m')) :
    counterOperate text ty m' = some (r, m') := by
  cases halm : alookup m ty with
  | none =>
    simp only [counterOperate, halm] at h
    obtain ⟨hr, hm'⟩ := Prod.mk.injEq .. ▸ Option.some.inj h
    subst hr
    subst hm'
    simp [counterOperate, alookup_aupdate_self, alookup_cons_self]
  | some mft =>
    by_cases hmt : mft = []
    · subst hmt
      simp only [counterOperate, halm, if_pos rfl] at h
      obtain ⟨hr, hm'⟩ := Prod.mk.injEq .. ▸ Option.some.inj h
      subst hr
      subst hm'
      simp [counterOperate, alookup_aupdate_self, alookup_cons_self]
    · cases hal2 : alookup mft text with
      | some v =>
        have h2 := h
        simp only [counterOperate, halm, hmt, if_neg hmt, hal2] at h2
        obtain ⟨hr, hm'⟩ := Prod.mk.injEq .. ▸ Option.some.inj h2
        subst hr
        subst hm'
        exact h
      | none =>
        cases hgli : get_last_index (mft.map Prod.snd) with
        | none =>
          simp only [counterOperate, halm, if_neg hmt, hal2, hgli] at h
          exact Option.noConfusion h
        | some prev =>
          simp only [counterOperate, halm, if_neg hmt, hal2, hgli] at h
          obtain ⟨hr, hm'⟩ := Prod.mk.injEq .. ▸ Option.some.inj h
          subst hr
          subst hm'
          simp [counterOperate, alookup_aupdate_self, aupdate_ne_nil]

theorem replacer_repeat (O O' : Oracle) (text ty : Str) (m : Mapping)
    (r : Str) (m' : Mapping)
    (h : replacerOperate O text ty m = some (r, m')) :
    replacerOperate O' text ty m' = some (r, m') := by
  cases halm : alookup m ty with
  | none =>
    cases hgen : generate_replacement O ty text with
    | none =>
      simp only [replacerOperate, halm, hgen] at h
      exact Option.noConfusion h
    | some rep =>
      simp only [replacerOperate, halm, hgen] at h
      obtain ⟨hr, hm'⟩ := Prod.mk.injEq .. ▸ Option.some.inj h
      subst hr
      subst hm'
      simp [replacerOperate, alookup_aupdate_self, alookup_cons_self]
  | some mft =>
    by_cases hmt : mft = []
    · subst hmt
      cases hgen : generate_replacement O ty text with
      | none => simp [replacerOperate, halm, hgen] at h
      | some rep =>
        simp only [replacerOperate, halm, if_pos rfl, hgen] at h
        obtain ⟨hr, hm'⟩ := Prod.mk.injEq .. ▸ Option.some.inj h
        subst hr
        subst hm'
        simp [replacerOperate, alookup_aupdate_self, alookup_cons_self]
    · cases hal2 : alookup mft text with
      | some v =>
        have h2 := h
        simp only [replacerOperate, halm, if_neg hmt, hal2] at h2
        obtain ⟨hr, hm'⟩ := Prod.mk.injEq .. ▸ Option.some.inj h2
        subst hr
        subst hm'
        simp only [replacerOperate, halm, if_neg hmt, hal2]
      | none =>
        cases hgen : generate_replacement O ty text with
        | none =>
          simp only [replacerOperate, halm, if_neg hmt, hal2, hgen] at h
          exact Option.noConfusion h
        | some rep =>
          simp only [replacerOperate, halm, if_neg hmt, hal2, hgen] at h
          obtain ⟨hr, hm'⟩ := Prod.mk.injEq .. ▸ Option.some.inj h
          subst hr
          subst hm'
          simp [replacerOperate, alookup_aupdate_self, aupdate_ne_nil]

/-! ### Totality of replacement generation -/

theorem guess_gender_some (O : Oracle) (w : Str) :
    guess_gender O w =
      some (match O.genderOf w with
            | GLabel.unknown => GenTag.nonbinary
            | GLabel.andy => GenTag.nonbinary
            | GLabel.male => GenTag.male
            | GLabel.mostly_male => GenTag.male
            | GLabel.female => GenTag.female
            | GLabel.mostly_female => GenTag.female) := by
  cases h : O.genderOf w <;> simp [guess_gender, h] <;> rfl

theorem generate_replacement_some (O : Oracle) (ty value : Str)
    (h : ty = sPERSON → pySplitWs value ≠ []) :
    ∃ rep, generate_replacement O ty value = some rep := by
  by_cases hp : ty = sPERSON
  · obtain ⟨w, ws, hws⟩ : ∃ w ws, pySplitWs value = w :: ws := by
      cases hsp : pySplitWs value with
      | nil => exact absurd hsp (h hp)
      | cons w ws => exact ⟨w, ws, rfl⟩
    refine ⟨applyGen O (match O.genderOf w with
      | GLabel.unknown => GenTag.nonbinary
      | GLabel.andy => GenTag.nonbinary
      | GLabel.male => GenTag.male
      | GLabel.mostly_male => GenTag.male
      | GLabel.female => GenTag.female
      | GLabel.mostly_female => GenTag.female), ?_⟩
    simp [generate_replacement, hp, hws, guess_gender_some]
  · by_cases hl : ty = sLOCATION
    · subst hl
      refine ⟨pyReplaceNl O.address, ?_⟩
      unfold generate_replacement
      rw [if_neg (by decide), if_pos rfl]
    · by_cases hn : ty = sPHONE
      · subst hn
        refine ⟨O.phone, ?_⟩
        unfold generate_replacement
        rw [if_neg (by decide), if_neg (by decide), if_pos rfl]
      · refine ⟨[], ?_⟩
        unfold generate_replacement
        rw [if_neg hp, if_neg hl, if_neg hn]

theorem replacerOperate_some (O : Oracle) (text ty : Str) (m : Mapping)
    (h : ty = sPERSON → pySplitWs text ≠ []) :
    ∃ r m', replacerOperate O text ty m = some (r, m') := by
  obtain ⟨rep, hgen⟩ := generate_replacement_some O ty text h
  cases halm : alookup m ty with
  | none =>
    exact ⟨mkReplacerText ty rep,
      aupdate m ty [(text, mkReplacerText ty rep)],
      by simp [replacerOperate, halm, hgen]⟩
  | some mft =>
    by_cases hmt : mft = []
    · subst hmt
      exact ⟨mkReplacerText ty rep,
        aupdate m ty [(text, mkReplacerText ty rep)],
        by simp [replacerOperate, halm, hgen]⟩
    · cases hal2 : alookup mft text with
      | some v =>
        exact ⟨v, m, by simp [replacerOperate, halm, if_neg hmt, hal2]⟩
      | none =>
        exact ⟨mkReplacerText ty rep,
          aupdate m ty (aupdate mft text (mkReplacerText ty rep)),
          by simp [replacerOperate, halm, if_neg hmt, hal2, hgen]⟩

/-! ### A successful replacer call records its result -/

theorem replacer_records (O : Oracle) (text ty : Str) (m : Mapping)
    (r : Str) (m' : Mapping)
    (h : replacerOperate O text ty m = some (r, m')) :
    ∃ mft, alookup m' ty = some mft ∧ alookup mft text = some r := by
  cases halm : alookup m ty with
  | none =>
    cases hgen : generate_replacement O ty text with
    | none =>
      simp only [replacerOperate, halm, hgen] at h
      exact Option.noConfusion h
    | some rep =>
      simp only [replacerOperate, halm, hgen] at h
      obtain ⟨hr, hm'⟩ := Prod.mk.injEq .. ▸ Option.some.inj h
      subst hr
      subst hm'
      exact ⟨_, alookup_aupdate_self .., alookup_cons_self ..⟩
  | some mft =>
    by_cases hmt : mft = []
    · subst hmt
      cases hgen : generate_replacement O ty text with
      | none => simp [replacerOperate, halm, hgen] at h
      | some rep =>
        simp only [replacerOperate, halm, if_pos rfl, hgen] at h
        obtain ⟨hr, hm'⟩ := Prod.mk.injEq .. ▸ Option.some.inj h
        subst hr
        subst hm'
        exact ⟨_, alookup_aupdate_self .., alookup_cons_self ..⟩
    · cases hal2 : alookup mft text with
      | some v =>
        simp only [replacerOperate, halm, if_neg hmt, hal2] at h
        obtain ⟨hr, hm'⟩ := Prod.mk.injEq .. ▸ Option.some.inj h
        subst hr
        subst hm'
        exact ⟨mft, halm, hal2⟩
      | none =>
        cases hgen : generate_replacement O ty text with
        | none =>
          simp only [replacerOperate, halm, if_neg hmt, hal2, hgen] at h
          exact Option.noConfusion h
        | some rep =>
          simp only [replacerOperate, halm, if_neg hmt, hal2, hgen] at h
          obtain ⟨hr, hm'⟩ := Prod.mk.injEq .. ▸ Option.some.inj h
          subst hr
          subst hm'
          exact ⟨_, alookup_aupdate_self .., alookup_aupdate_self ..⟩

/-! ### The two counter operators compute the same function -/

theorem pii_get_index_eq (v : Str) : pii_get_index v = get_index v := rfl

theorem pii_collectIndices_eq :
    ∀ l : List Str, pii_collectIndices l = collectIndices l := by
  intro l
  induction l with
  | nil => rfl
  | cons v vs ih =>
    simp only [pii_collectIndices, collectIndices, pii_get_index_eq, ih]

theorem pii_get_last_index_eq (vals : List Str) :
    pii_get_last_index vals = get_last_index vals := by
  unfold pii_get_last_index get_last_index
  rw [pii_collectIndices_eq]

theorem pii_mkCounterRepl_eq (t : Str) (k : Nat) :
    pii_mkCounterRepl t k = mkCounterRepl t k := rfl

theorem pii_counterOperate_eq (text ty : Str) (m : Mapping) :
    pii_counterOperate text ty m = counterOperate text ty m := by
  unfold pii_counterOperate counterOperate
  simp only [pii_get_last_index_eq, pii_mkCounterRepl_eq]

theorem runOp_pii_counter_eq :
    ∀ (calls : List (Str × Str)) (m : Mapping),
      runOp pii_counterOperate calls m = runOp counterOperate calls m := by
  intro calls
  induction calls with
  | nil => intro m; rfl
  | cons c rest ih =>
    intro m
    obtain ⟨text, ty⟩ := c
    simp only [runOp, pii_counterOperate_eq]
    cases counterOperate text ty m with
    | none => rfl
    | some p =>
      obtain ⟨r, m'⟩ := p
      simp only [ih]

end Scrambletron

namespace Scrambletron

/-! ### The claims -/

/-- C1 (code bug): `validate_result` is supposed to accept iff the
modulo-11 check digit matches the 10th digit, but the source discards the
result of `_verify_modulo_11` and returns `True` unconditionally.  On the
candidate "0101110000" the date checks pass, `_verify_modulo_11` (called
with exactly the arguments `validate_result` passes) reports `False`
because the computed check digit 1 differs from the 10th digit 0, yet
`validate_result` still returns `True`. -/
theorem c1_checksum_discarded :
    validate_result cprBad = true ∧
    verify_modulo_11 (sanitize cprBad)
      (decimalVal ((sanitize cprBad).take 2))
      (decimalVal (((sanitize cprBad).drop 2).take 2))
      (decimalVal (((sanitize cprBad).drop 4).take 2))
      ((sanitize cprBad).drop 6) = some false := by
  decide

/-- C2: once an original value has a recorded replacement for an entity
type, a second `operate` call with the same entity type and text returns
the exact string the first call returned and leaves the mapping unchanged,
in both the counter variant and the replacer variant (for the replacer
even if the faker/classifier oracle answers differently the second
time). -/
theorem c2_repeat_idempotent :
    (∀ (text ty : Str) (m : Mapping) (r : Str) (m' : Mapping),
      counterOperate text ty m = some (r, m') →
      counterOperate text ty m' = some (r, m')) ∧
    (∀ (O O' : Oracle) (text ty : Str) (m : Mapping) (r : Str) (m' : Mapping),
      replacerOperate O text ty m = some (r, m') →
      replacerOperate O' text ty m' = some (r, m')) :=
  ⟨counter_repeat, replacer_repeat⟩

/-- Witness for C2: after the counter operator records "a" under type "T"
(and the replacer records "a" under type "EMAIL"), repeating the call
returns the recorded tag and the very same mapping. -/
theorem c2_repeat_idempotent_witness :
    counterOperate tA sT [(sT, [(tA, mkCounterRepl sT 0)])] =
      some (mkCounterRepl sT 0, [(sT, [(tA, mkCounterRepl sT 0)])]) ∧
    replacerOperate trivOracle tA sEMAIL
        [(sEMAIL, [(tA, mkReplacerText sEMAIL [])])] =
      some (mkReplacerText sEMAIL [],
        [(sEMAIL, [(tA, mkReplacerText sEMAIL [])])]) :=
  ⟨c2_repeat_idempotent.1 tA sT [] (mkCounterRepl sT 0)
      [(sT, [(tA, mkCounterRepl sT 0)])] (by decide),
   c2_repeat_idempotent.2 trivOracle trivOracle tA sEMAIL []
      (mkReplacerText sEMAIL [])
      [(sEMAIL, [(tA, mkReplacerText sEMAIL [])])] (by decide)⟩

/-- Counterexample to C4: in the replacement variant, entity type "EMAIL"
(outside the supported set) makes `_generate_replacement` return the empty
string for every value, so the two distinct originals "a" and "b" both get
recorded replacement `<EMAIL_>` — replacement strings ARE reused across
different original values. -/
theorem c4_replacer_reuses_replacements :
    replacerOperate trivOracle tA sEMAIL [] =
      some (mkReplacerText sEMAIL [],
        [(sEMAIL, [(tA, mkReplacerText sEMAIL [])])]) ∧
    replacerOperate trivOracle tB sEMAIL
        [(sEMAIL, [(tA, mkReplacerText sEMAIL [])])] =
      some (mkReplacerText sEMAIL [],
        [(sEMAIL, [(tA, mkReplacerText sEMAIL []),
                   (tB, mkReplacerText sEMAIL [])])]) ∧
    tA ≠ tB := by
  decide

/-- C4 as amended: in the counter variant, for every mapping reachable by
a run of `operate` calls for a fixed entity type from a state where that
type is unmapped, two distinct original values recorded under the type
always have different replacement strings.  (The replacement variant does
not have this property, see the counterexample.) -/
theorem c4_counter_unique_replacements :
    ∀ (ty : Str) (texts : List Str) (m m' : Mapping) (mft : Mft)
      (t₁ t₂ r₁ r₂ : Str),
      alookup m ty = none → runCounter ty texts m = some m' →
      alookup m' ty = some mft →
      t₁ ≠ t₂ → alookup mft t₁ = some r₁ → alookup mft t₂ = some r₂ →
      r₁ ≠ r₂ := by
  intro ty texts m m' mft t₁ t₂ r₁ r₂ h0 hrun hmft hne h₁ h₂
  cases texts with
  | nil =>
    simp only [runCounter] at hrun
    obtain rfl := Option.some.inj hrun
    rw [h0] at hmft
    exact Option.noConfusion hmft
  | cons t ts =>
    have hstep := counterOperate_fresh t ty m (Or.inl h0)
    have hrun' : runCounter ty ts (aupdate m ty (buildMft ty 0 [t])) =
        some m' := by
      simp only [runCounter, hstep] at hrun
      exact hrun
    obtain ⟨m'', hrun2, halm, hnodup, hK⟩ :=
      runCounter_inv ts ty (aupdate m ty (buildMft ty 0 [t])) [t]
        (by simp) (List.nodup_singleton t)
        (alookup_aupdate_self m ty (buildMft ty 0 [t]))
    rw [hrun2] at hrun'
    obtain rfl := Option.some.inj hrun'
    rw [halm] at hmft
    obtain rfl := Option.some.inj hmft
    rw [alookup_buildMft] at h₁ h₂
    by_cases m₁ : t₁ ∈ fsAcc [t] ts
    · by_cases m₂ : t₂ ∈ fsAcc [t] ts
      · rw [if_pos m₁] at h₁
        rw [if_pos m₂] at h₂
        obtain rfl := Option.some.inj h₁
        obtain rfl := Option.some.inj h₂
        intro hrr
        have := mkCounterRepl_inj ty hrr
        have hidx : firstIdx t₁ (fsAcc [t] ts) = firstIdx t₂ (fsAcc [t] ts) := by
          omega
        exact hne (firstIdx_inj (fsAcc [t] ts) t₁ t₂ m₁ m₂ hidx)
      · rw [if_neg m₂] at h₂
        exact Option.noConfusion h₂
    · rw [if_neg m₁] at h₁
      exact Option.noConfusion h₁

/-- Witness for the amended C4: recording "a" then "b" under type "T"
yields the distinct replacements <T_0> and <T_1>. -/
theorem c4_counter_unique_replacements_witness :
    mkCounterRepl sT 0 ≠ mkCounterRepl sT 1 :=
  c4_counter_unique_replacements sT [tA, tB] []
    [(sT, [(tA, mkCounterRepl sT 0), (tB, mkCounterRepl sT 1)])]
    [(tA, mkCounterRepl sT 0), (tB, mkCounterRepl sT 1)]
    tA tB (mkCounterRepl sT 0) (mkCounterRepl sT 1)
    (by decide) (by decide) (by decide) (by decide) (by decide) (by decide)

/-- C6: in the counter variant, running any sequence of calls for a fixed
entity type from a state where the type is unmapped records, for the
`i`-th distinct original value (0-based, first-seen order), exactly the
replacement `<TYPE_i>` — i.e. the n-th distinct value receives index
n-1, regardless of interleaved repeats. -/
theorem c6_counter_first_seen_order :
    ∀ (ty : Str) (texts : List Str) (m m' : Mapping),
      alookup m ty = none → runCounter ty texts m = some m' →
      ∀ i (hi : i < (fsAcc [] texts).length),
        ∃ mft, alookup m' ty = some mft ∧
          alookup mft ((fsAcc [] texts).get ⟨i, hi⟩) =
            some (mkCounterRepl ty i) := by
  intro ty texts m m' h0 hrun i hi
  cases texts with
  | nil => exact absurd hi (by simp [fsAcc])
  | cons t ts =>
    have hstep := counterOperate_fresh t ty m (Or.inl h0)
    have hrun' : runCounter ty ts (aupdate m ty (buildMft ty 0 [t])) =
        some m' := by
      simp only [runCounter, hstep] at hrun
      exact hrun
    obtain ⟨m'', hrun2, halm, hnodup, hK⟩ :=
      runCounter_inv ts ty (aupdate m ty (buildMft ty 0 [t])) [t]
        (by simp) (List.nodup_singleton t)
        (alookup_aupdate_self m ty (buildMft ty 0 [t]))
    rw [hrun2] at hrun'
    obtain rfl := Option.some.inj hrun'
    have hfs : fsAcc [] (t :: ts) = fsAcc [t] ts := by
      simp [fsAcc]
    refine ⟨buildMft ty 0 (fsAcc [t] ts), halm, ?_⟩
    have hmem : (fsAcc [] (t :: ts)).get ⟨i, hi⟩ ∈ fsAcc [t] ts := by
      rw [← hfs]
      exact List.get_mem (fsAcc [] (t :: ts)) i hi
    rw [alookup_buildMft, if_pos hmem]
    have hget : (fsAcc [] (t :: ts)).get ⟨i, hi⟩ =
        (fsAcc [t] ts).get ⟨i, hfs ▸ hi⟩ := by
      congr 1
    rw [hget, firstIdx_get (fsAcc [t] ts) hnodup i (hfs ▸ hi), Nat.zero_add]

/-- Witness for C6: running "a", "b", "a", "c" for type "T" on an empty
mapping assigns a ↦ <T_0>, b ↦ <T_1>, c ↦ <T_2>. -/
theorem c6_counter_first_seen_order_witness :
    2 < (fsAcc [] [tA, tB, tA, tC]).length ∧
    ∃ mft,
      alookup [(sT, [(tA, mkCounterRepl sT 0), (tB, mkCounterRepl sT 1),
        (tC, mkCounterRepl sT 2)])] sT = some mft ∧
      alookup mft ((fsAcc [] [tA, tB, tA, tC]).get ⟨2, by decide⟩) =
        some (mkCounterRepl sT 2) :=
  ⟨by decide,
   c6_counter_first_seen_order sT [tA, tB, tA, tC] []
     [(sT, [(tA, mkCounterRepl sT 0), (tB, mkCounterRepl sT 1),
       (tC, mkCounterRepl sT 2)])] (by decide) (by decide) 2 (by decide)⟩

/-- Counterexample to C7: the original text " " (a single space) is
non-empty, yet a PERSON call on it makes `_generate_replacement` evaluate
`value.split()[0]` on an empty list, raising an uncaught `IndexError`
(modelled as `none`). -/
theorem c7_whitespace_person_raises :
    replacerOperate trivOracle [' '] sPERSON [] = none := by
  decide

/-- C7 as amended: every well-formed replacer call returns a string
without raising — provided a PERSON text contains at least one
non-whitespace token (whitespace-only PERSON texts raise, see the
counterexample). -/
theorem c7_total_for_tokenizable_inputs :
    ∀ (O : Oracle) (text ty : Str) (m : Mapping),
      (ty = sPERSON → pySplitWs text ≠ []) →
      ∃ r m', replacerOperate O text ty m = some (r, m') :=
  fun O text ty m h => replacerOperate_some O text ty m h

/-- Witness for C7: the PERSON call on the one-token text "a" succeeds. -/
theorem c7_total_for_tokenizable_inputs_witness :
    ∃ r m', replacerOperate trivOracle tA sPERSON [] = some (r, m') :=
  c7_total_for_tokenizable_inputs trivOracle tA sPERSON []
    (fun _ => by decide)

/-- C8: for an entity type outside {PERSON, LOCATION, PHONE_NUMBER},
replacement generation returns the empty string instead of failing, the
call completes, the mapping records a replacement for the original value,
and any repeat call (with any oracle) returns that recorded
replacement. -/
theorem c8_unsupported_type_degrades :
    ∀ (O : Oracle) (text ty : Str) (m : Mapping),
      ty ≠ sPERSON → ty ≠ sLOCATION → ty ≠ sPHONE →
      generate_replacement O ty text = some [] ∧
      ∃ r m', replacerOperate O text ty m = some (r, m') ∧
        (∃ mft, alookup m' ty = some mft ∧ alookup mft text = some r) ∧
        ∀ O', replacerOperate O' text ty m' = some (r, m') := by
  intro O text ty m hp hl hn
  have hgen : generate_replacement O ty text = some [] := by
    unfold generate_replacement
    rw [if_neg hp, if_neg hl, if_neg hn]
  obtain ⟨r, m', hop⟩ :=
    replacerOperate_some O text ty m (fun habs => absurd habs hp)
  exact ⟨hgen, r, m', hop, replacer_records O text ty m r m' hop,
    fun O' => replacer_repeat O O' text ty m r m' hop⟩

/-- Witness for C8: a concrete "EMAIL" call on the empty mapping. -/
theorem c8_unsupported_type_degrades_witness :
    generate_replacement trivOracle sEMAIL tA = some [] ∧
    ∃ r m', replacerOperate trivOracle tA sEMAIL [] = some (r, m') ∧
      (∃ mft, alookup m' sEMAIL = some mft ∧ alookup mft tA = some r) ∧
      ∀ O', replacerOperate O' tA sEMAIL m' = some (r, m') :=
  c8_unsupported_type_degrades trivOracle tA sEMAIL []
    (by decide) (by decide) (by decide)

/-- C9: for every classifier label in the closed set, `_guess_gender`
returns exactly one generator without raising: unknown and andy select
the nonbinary generator, male and mostly_male the male generator, female
and mostly_female the female generator. -/
theorem c9_gender_selection_total :
    ∀ (O : Oracle) (w : Str),
      guess_gender O w =
        some (match O.genderOf w with
              | GLabel.unknown => GenTag.nonbinary
              | GLabel.andy => GenTag.nonbinary
              | GLabel.male => GenTag.male
              | GLabel.mostly_male => GenTag.male
              | GLabel.female => GenTag.female
              | GLabel.mostly_female => GenTag.female) :=
  fun O w => guess_gender_some O w

/-- C3: `_derive_full_year` follows the fixed rule table on the first
sequence digit: 0-3 gives 1900+year; 4 and 9 give 2000+year for year ≤ 36
and 1900+year for 37-99; 5-8 give 2000+year for year ≤ 57 and 1800+year
for 58-99 (two-digit years are always ≤ 99, so the unreachable
out-of-range arms never fire). -/
theorem c3_century_rule_table :
    ∀ (year : Nat) (c : Char) (rest : Str),
      year ≤ 99 → c.isDigit = true →
      (digitVal c ≤ 3 →
        derive_full_year year (c :: rest) = some (1900 + year)) ∧
      ((digitVal c = 4 ∨ digitVal c = 9) →
        derive_full_year year (c :: rest) =
          some (if year ≤ 36 then 2000 + year else 1900 + year)) ∧
      ((digitVal c = 5 ∨ digitVal c = 6 ∨ digitVal c = 7 ∨ digitVal c = 8) →
        derive_full_year year (c :: rest) =
          some (if year ≤ 57 then 2000 + year else 1800 + year)) := by
  intro year c rest hy hc
  refine ⟨?_, ?_, ?_⟩ <;> intro hd
  · simp [derive_full_year, hc, hd]
  · have h3 : ¬ digitVal c ≤ 3 := by rcases hd with h | h <;> omega
    by_cases hy36 : year ≤ 36
    · simp [derive_full_year, hc, h3, hd, hy36]
    · have h99 : 36 ≤ year ∧ year ≤ 99 := ⟨by omega, hy⟩
      simp [derive_full_year, hc, h3, hd, hy36, h99]
  · have h3 : ¬ digitVal c ≤ 3 := by
      rcases hd with h | h | h | h <;> omega
    have h49 : ¬ (digitVal c = 4 ∨ digitVal c = 9) := by
      rcases hd with h | h | h | h <;> omega
    by_cases hy57 : year ≤ 57
    · simp [derive_full_year, hc, h3, h49, hd, hy57]
    · have h99 : 58 ≤ year ∧ year ≤ 99 := ⟨by omega, hy⟩
      simp [derive_full_year, hc, h3, h49, hd, hy57, h99]

/-- Witness for C3: the three concrete examples of the claim — digit7=2,
year=99 gives 1999; digit7=5, year=60 gives 1860; digit7=9, year=10
gives 2010. -/
theorem c3_century_rule_table_witness :
    derive_full_year 99 ['2', '0', '0', '0'] = some 1999 ∧
    derive_full_year 60 ['5', '0', '0', '0'] = some 1860 ∧
    derive_full_year 10 ['9', '0', '0', '0'] = some 2010 := by
  refine ⟨?_, ?_, ?_⟩
  · have h := (c3_century_rule_table 99 '2' ['0', '0', '0'] (by decide)
      (by decide)).1 (by decide)
    simpa using h
  · have h := (c3_century_rule_table 60 '5' ['0', '0', '0'] (by decide)
      (by decide)).2.2 (Or.inl (by decide))
    simpa using h
  · have h := (c3_century_rule_table 10 '9' ['0', '0', '0'] (by decide)
      (by decide)).2.1 (Or.inr (by decide))
    simpa using h

/-- C5: on any 10-digit input, `_verify_modulo_11` computes the weighted
sum of the first 9 digits with weights [4,3,2,7,6,5,4,3,2], takes the
remainder modulo 11 and the check digit 0 (remainder 0) or 11-remainder;
whenever that computed check digit is 10 it reports invalid regardless of
the 10th digit, and whenever it reports valid the computed check digit
equals the 10th digit. -/
theorem c5_checksum_rule :
    ∀ (text : Str) (day month year : Nat) (seq : Str),
      text.length = 10 → text.all Char.isDigit = true → seq ≠ [] →
      ((if weightedSum text % 11 = 0 then 0
        else 11 - weightedSum text % 11) = 10 →
        verify_modulo_11 text day month year seq = some false) ∧
      (verify_modulo_11 text day month year seq = some true →
        (if weightedSum text % 11 = 0 then 0
         else 11 - weightedSum text % 11) = digitVal (text.getD 9 ' ')) := by
  intro text day month year seq hlen hdig hseq
  have hdig' : ∀ c ∈ text, c.isDigit = true := List.all_eq_true.mp hdig
  have h9 : 9 ≤ text.length ∧ (text.take 9).all Char.isDigit := by
    refine ⟨by omega, List.all_eq_true.mpr ?_⟩
    intro c hc
    exact hdig' c (List.take_subset 9 text hc)
  obtain ⟨c9, hdrop⟩ : ∃ c, text.drop 9 = [c] := by
    have hl : (text.drop 9).length = 1 := by
      rw [List.length_drop, hlen]
    cases e : text.drop 9 with
    | nil => rw [e] at hl; simp at hl
    | cons c cs =>
      rw [e] at hl
      simp only [List.length_cons] at hl
      have : cs = [] := List.length_eq_zero.mp (by omega)
      exact ⟨c, by rw [this]⟩
  have hc9 : text.getD 9 ' ' = c9 := by
    rw [List.getD_eq_getElem?_getD]
    have := List.getElem?_drop text 9 0
    rw [hdrop] at this
    simp only [Nat.add_zero] at this
    rw [← this]
    rfl
  have hc9dig : c9.isDigit = true :=
    hdig' c9 (List.drop_subset 9 text (hdrop ▸ List.mem_singleton_self c9))
  constructor
  · intro hcd
    unfold verify_modulo_11
    rw [if_neg hseq]
    cases hder : derive_full_year year seq with
    | none => rfl
    | some fy =>
      by_cases hdate : strptimeY4 fy month day = true
      · simp [hdate, h9.1, h9.2, hcd]
      · simp [hdate]
  · intro htrue
    unfold verify_modulo_11 at htrue
    rw [if_neg hseq] at htrue
    cases hder : derive_full_year year seq with
    | none =>
      rw [hder] at htrue
      simp at htrue
    | some fy =>
      rw [hder, hdrop] at htrue
      by_cases hdate : strptimeY4 fy month day = true
      · by_cases hcd :
            (if weightedSum text % 11 = 0 then 0
             else 11 - weightedSum text % 11) = 10
        · simp [hdate, h9.1, h9.2, hcd] at htrue
        · simp [hdate, h9.1, h9.2, hcd, hc9dig] at htrue
          rw [hc9]
          exact htrue
      · simp [hdate] at htrue

/-- Witness for C5: the candidate "0000000060" has computed check digit
10 and is reported invalid; the candidate "1111111118" is reported valid
and its computed check digit 8 equals its 10th digit. -/
theorem c5_checksum_rule_witness :
    verify_modulo_11 cprTen 1 1 1 ['0', '0', '6', '0'] = some false ∧
    (if weightedSum cprGood % 11 = 0 then 0
     else 11 - weightedSum cprGood % 11) = digitVal (cprGood.getD 9 ' ') :=
  ⟨(c5_checksum_rule cprTen 1 1 1 ['0', '0', '6', '0'] (by decide) (by decide)
      (by decide)).1 (by decide),
   (c5_checksum_rule cprGood 11 11 11 ['1', '1', '1', '8'] (by decide)
      (by decide) (by decide)).2 (by decide)⟩

/-- C10: the two `InstanceCounterAnonymizer.operate` implementations (the
scrambletron tree and the pii_removal tree) are behaviourally equivalent:
on every well-formed call they return the same replacement and the same
updated mapping, hence every call sequence from equal initial mappings
produces the same outputs and equal final mappings. -/
theorem c10_counter_variants_equivalent :
    (∀ (text ty : Str) (m : Mapping),
      pii_counterOperate text ty m = counterOperate text ty m) ∧
    (∀ (calls : List (Str × Str)) (m : Mapping),
      runOp pii_counterOperate calls m = runOp counterOperate calls m) :=
  ⟨pii_counterOperate_eq, runOp_pii_counter_eq⟩

end Scrambletron
